import Mathlib

/-
Verification of the piclang curve calculus (src/python/piclang.py).

Modelling conventions:
* Python dynamic values that flow through the curve API are modelled by the
  inductive type V: numbers, tuples of reals, bare callables, and the Curve
  objects (FunctionCurve and the combinator node classes).
* Evaluating a curve object at a parameter t (Python __call__) is modelled by
  evalV : V -> Real -> Option (Real x Real).  A result of none models a Python
  exception escaping from evaluation (TypeError from calling a non-callable,
  ZeroDivisionError from division by a zero step count).
* Constructing a combinator (the Python class constructors, which may raise
  TypeError from Curve.wrap) is modelled by Except PicError V.
* PicStack is modelled with an Int cursor and Python list-index semantics
  (negative indices wrap once; an index still out of range is an IndexError,
  modelled as none).
-/

namespace Piclang

/-- Dynamic values: numbers, real tuples, bare callables, and Curve objects.
The Curve objects are FunctionCurve (fnC) and the combinator node classes
translate, scale, rotate, concat, reverse, rep (class repeat) and step.
The classes reverse, repeat and step store their operands unwrapped, exactly
as in the source, so their fields are arbitrary values of type V. -/
inductive V : Type where
  | num : ℝ → V
  | tup : List ℝ → V
  | fn : (ℝ → ℝ × ℝ) → V
  | fnC : (ℝ → ℝ × ℝ) → V
  | translate : V → V → V
  | scale : V → V → V
  | rotate : V → V → V
  | concat : V → V → V
  | reverse : V → V
  | rep : V → V → V
  | step : V → V → V

/-- isinstance(o, Curve): true exactly for the Curve subclasses. -/
def isCurveB : V → Bool
  | .num _ => false
  | .tup _ => false
  | .fn _ => false
  | _ => true

/-- The Python type name of a value, as reported in the TypeError raised by
Curve.wrap (the message carries the offending value and its type). -/
def typeNameV : V → String
  | .num _ => "number"
  | .tup _ => "tuple"
  | .fn _ => "function"
  | _ => "Curve"

/-- Errors raised during construction of curve expressions. -/
inductive PicError : Type where
  | invalidOperand : V → String → PicError
  | typeErr : String → PicError
  | indexErr : PicError

/-- constant(val): a FunctionCurve whose function ignores t and returns val. -/
def constant (p : ℝ × ℝ) : V := V.fnC (fun _ => p)

/-- Curve.wrap: identity on Curve instances; FunctionCurve around a callable;
a number n goes through wrap((n, n)) and lands in the tuple branch; a tuple
of length 2 becomes a constant curve; anything else raises TypeError carrying
the value and its type. -/
def wrap (o : V) : Except PicError V :=
  if isCurveB o then .ok o
  else match o with
    | .fn f => .ok (.fnC f)
    | .num n => .ok (constant (n, n))
    | .tup l => match l with
      | [x, y] => .ok (constant (x, y))
      | _ => .error (.invalidOperand (.tup l) (typeNameV (.tup l)))
    | v => .error (.invalidOperand v (typeNameV v))

noncomputable section

/-- circle(t) = (sin(2 pi t), cos(2 pi t)), as a FunctionCurve. -/
def circle : V :=
  V.fnC (fun t => (Real.sin (2 * Real.pi * t), Real.cos (2 * Real.pi * t)))

/-- line(t) = (t, t), as a FunctionCurve. -/
def line : V := V.fnC (fun t => (t, t))

/-- Calling a value at parameter t (Python __call__).  none models an
exception: calling a number or tuple is a TypeError; a repeat or step node
whose stored times/steps field is not a number raises a TypeError when it is
used in arithmetic; step with steps = 0 raises ZeroDivisionError, since the
source divides by self.steps.  Real tuple components follow the source:
translate adds, scale multiplies, rotate is complex multiplication, concat
splits time at one half, reverse runs time backwards, rep (repeat) maps t to
(t * times) mod 1, and step maps t to floor(t * steps) / steps. -/
def evalV : V → ℝ → Option (ℝ × ℝ)
  | .num _, _ => none
  | .tup _, _ => none
  | .fn f, t => some (f t)
  | .fnC f, t => some (f t)
  | .translate a b, t => do
      let pa ← evalV a t
      let pb ← evalV b t
      some (pa.1 + pb.1, pa.2 + pb.2)
  | .scale a b, t => do
      let pa ← evalV a t
      let pb ← evalV b t
      some (pa.1 * pb.1, pa.2 * pb.2)
  | .rotate a b, t => do
      let pa ← evalV a t
      let pb ← evalV b t
      some (pa.1 * pb.1 - pa.2 * pb.2, pa.2 * pb.1 + pa.1 * pb.2)
  | .concat a b, t => if t < 1 / 2 then evalV a (t * 2) else evalV b (t * 2 - 1)
  | .reverse f, t => evalV f (1 - t)
  | .rep f n, t =>
      match n with
      | .num k => evalV f (Int.fract (t * k))
      | _ => none
  | .step f n, t =>
      match n with
      | .num k => if k = 0 then none else evalV f ((⌊t * k⌋ : ℝ) / k)
      | _ => none

/-- Evaluation through a possibly failed construction: a construction error
means there is no curve to evaluate. -/
def evalE (e : Except PicError V) (t : ℝ) : Option (ℝ × ℝ) :=
  match e with
  | .ok v => evalV v t
  | .error _ => none

/-- translate(a, b): TwoArgCurve wraps both operands, a first. -/
def translateC (a b : V) : Except PicError V := do
  let x ← wrap a
  let y ← wrap b
  .ok (V.translate x y)

/-- scale(a, b): TwoArgCurve wraps both operands, a first. -/
def scaleC (a b : V) : Except PicError V := do
  let x ← wrap a
  let y ← wrap b
  .ok (V.scale x y)

/-- rotate(a, b): TwoArgCurve wraps both operands, a first. -/
def rotateC (a b : V) : Except PicError V := do
  let x ← wrap a
  let y ← wrap b
  .ok (V.rotate x y)

/-- concat(a, b): wraps both operands, a first. -/
def concatC (a b : V) : Except PicError V := do
  let x ← wrap a
  let y ← wrap b
  .ok (V.concat x y)

/-- reverse(f): stores its operand unwrapped. -/
def reverseC (f : V) : V := V.reverse f

/-- repeat(f, times): stores both fields unwrapped. -/
def repeatC (f : V) (times : ℝ) : V := V.rep f (V.num times)

/-- step(f, steps): stores both fields unwrapped. -/
def stepC (f : V) (steps : ℝ) : V := V.step f (V.num steps)

/-- boustro(func, times) with a dynamic times operand, as invoked by the
stack builder: repeat(concat(func, reverse(func)), times / 2.0).  The concat
argument is built first (so a wrap failure there surfaces first); dividing a
non-number times by 2.0 is a TypeError. -/
def boustroCV (f : V) (times : V) : Except PicError V := do
  let c ← concatC f (reverseC f)
  match times with
  | .num k => .ok (V.rep c (V.num (k / 2)))
  | _ => .error (.typeErr "unsupported operand type for division")

/-- boustro(func, times) with a numeric times argument. -/
def boustroC (f : V) (times : ℝ) : Except PicError V := boustroCV f (V.num times)

end

/-- Python list read l[i]: a negative index has the length added once; an
index still outside the list is an IndexError, modelled as none. -/
def pyget {α : Type} (l : List α) (i : ℤ) : Option α :=
  let j := if i < 0 then i + l.length else i
  if 0 ≤ j then l.get? j.toNat else none

/-- Python list write l[i] = x: a negative index has the length added once;
an index still outside the list is an IndexError, modelled as none. -/
def pyset {α : Type} (l : List α) (i : ℤ) (x : α) : Option (List α) :=
  let j := if i < 0 then i + l.length else i
  if 0 ≤ j ∧ j < l.length then some (l.set j.toNat x) else none

/-- PicStack: a growable buffer of dynamic values plus an integer cursor;
the cursor points at the first index that is not in the stack. -/
structure PicStack : Type where
  stack : List V
  stackptr : ℤ

/-- A freshly constructed PicStack: empty buffer, cursor 0. -/
def PicStack.init : PicStack := ⟨[], 0⟩

/-- PicStack._popone: an empty buffer returns the number 0 and leaves the
state alone; otherwise the cursor is decremented and, if it went negative,
reset to min(len, 8) - 1, and the slot at the new cursor is returned.  none
models an IndexError from the buffer read. -/
def PicStack.popone (s : PicStack) : Option (V × PicStack) :=
  if s.stack.isEmpty then some (V.num 0, s)
  else
    let p0 := s.stackptr - 1
    let p := if p0 < 0 then min (s.stack.length : ℤ) 8 - 1 else p0
    match pyget s.stack p with
    | some x => some (x, ⟨s.stack, p⟩)
    | none => none

/-- PicStack.pop(num): num single pops, results listed in popped order. -/
def PicStack.pop (s : PicStack) : ℕ → Option (List V × PicStack)
  | 0 => some ([], s)
  | n + 1 => do
      let (x, s1) ← s.popone
      let (xs, s2) ← s1.pop n
      some (x :: xs, s2)

/-- PicStack.push: if the cursor is below the buffer length, overwrite that
slot, otherwise append; then advance the cursor. -/
def PicStack.push (s : PicStack) (elt : V) : Option PicStack :=
  if s.stackptr < (s.stack.length : ℤ) then
    match pyset s.stack s.stackptr elt with
    | some l => some ⟨l, s.stackptr + 1⟩
    | none => none
  else some ⟨s.stack ++ [elt], s.stackptr + 1⟩

/-- Combinator constructor tokens understood by stackparse. -/
inductive CtorTag : Type where
  | translateT | scaleT | rotateT | concatT | reverseT | repeatT | stepT | boustroT

/-- The static argument count that stackparse discovers by introspection:
the constructors of translate/scale/rotate/concat take (self, a, b), repeat
and step take (self, func, times/steps), reverse takes (self, func), and the
function boustro takes (func, times). -/
def arity : CtorTag → ℕ
  | .reverseT => 1
  | _ => 2

noncomputable section

/-- Applying a combinator constructor to its popped operand list, exactly as
token(*stack.pop(argcount)) does.  The arity-mismatch fallthrough cannot be
reached from stackparse, which always pops exactly (arity c) values. -/
def applyCtor : CtorTag → List V → Except PicError V
  | .translateT, [a, b] => translateC a b
  | .scaleT, [a, b] => scaleC a b
  | .rotateT, [a, b] => rotateC a b
  | .concatT, [a, b] => concatC a b
  | .reverseT, [a] => .ok (reverseC a)
  | .repeatT, [a, n] => .ok (V.rep a n)
  | .stepT, [a, n] => .ok (V.step a n)
  | .boustroT, [a, n] => boustroCV a n
  | _, _ => .error (.typeErr "wrong number of constructor arguments")

/-- Input tokens of stackparse: the circle and line objects, numeric and
tuple literals, and combinator constructors. -/
inductive Token : Type where
  | circleTok : Token
  | lineTok : Token
  | numTok : ℝ → Token
  | tupTok : List ℝ → Token
  | ctorTok : CtorTag → Token

/-- Lift an Option-valued stack operation into the builder: none becomes the
IndexError the underlying list access would raise. -/
def liftO {α : Type} : Option α → Except PicError α
  | some x => .ok x
  | none => .error .indexErr

/-- One stackparse loop iteration: circle/line and literals are pushed
unchanged; a constructor token pops its arity, applies the constructor to
the operands in popped order, and pushes the result. -/
def stackStep (s : PicStack) : Token → Except PicError PicStack
  | .circleTok => liftO (s.push circle)
  | .lineTok => liftO (s.push line)
  | .numTok n => liftO (s.push (V.num n))
  | .tupTok l => liftO (s.push (V.tup l))
  | .ctorTok c => do
      let (args, s1) ← liftO (s.pop (arity c))
      let v ← applyCtor c args
      liftO (s1.push v)

/-- stackparse: fold the token stream over a fresh PicStack, then return
element 0 of a final pop(). -/
def stackparse (expr : List Token) : Except PicError V := do
  let s ← expr.foldlM stackStep PicStack.init
  let (xs, _) ← liftO (s.pop 1)
  match xs with
  | x :: _ => .ok x
  | [] => .error .indexErr

end

/-- Sufficient condition for evaluation of a value to be defined at every t:
the value is callable (a bare function or a Curve object), every stored
operand of reverse/repeat/step is again such a value, every repeat or step
times/steps field is a number, and every step count is nonzero (a zero step
count divides by zero at evaluation time in the source). -/
def evalTotal : V → Prop
  | .num _ => False
  | .tup _ => False
  | .fn _ => True
  | .fnC _ => True
  | .translate a b => evalTotal a ∧ evalTotal b
  | .scale a b => evalTotal a ∧ evalTotal b
  | .rotate a b => evalTotal a ∧ evalTotal b
  | .concat a b => evalTotal a ∧ evalTotal b
  | .reverse a => evalTotal a
  | .rep a n => evalTotal a ∧ ∃ k : ℝ, n = V.num k
  | .step a n => evalTotal a ∧ ∃ k : ℝ, n = V.num k ∧ k ≠ 0

/-- The PicStack invariant: the cursor is between 0 and the buffer length. -/
def StackInv (s : PicStack) : Prop :=
  0 ≤ s.stackptr ∧ s.stackptr ≤ (s.stack.length : ℤ)

/-- States reachable from a fresh PicStack by push and pop operations. -/
inductive Reaches : PicStack → Prop where
  | init : Reaches PicStack.init
  | push : ∀ {s s' : PicStack} {e : V}, Reaches s → s.push e = some s' → Reaches s'
  | pop1 : ∀ {s s' : PicStack} {x : V}, Reaches s → s.popone = some (x, s') → Reaches s'
  | popN : ∀ {s s' : PicStack} {n : ℕ} {xs : List V},
      Reaches s → s.pop n = some (xs, s') → Reaches s'

/-- Helper: bind on a successful Except result applies the continuation. -/
theorem exceptBindOk {α β : Type} (x : α) (f : α → Except PicError β) :
    (Except.ok x >>= f) = f x := rfl

/-- Helper: bind on a failed Except result keeps the error. -/
theorem exceptBindError {α β : Type} (e : PicError) (f : α → Except PicError β) :
    ((Except.error e : Except PicError α) >>= f) = Except.error e := rfl

/-- Helper: wrap is the identity on Curve instances. -/
theorem wrap_of_curve {v : V} (h : isCurveB v = true) : wrap v = Except.ok v := by
  simp [wrap, h]

/-- Helper: wrapping a Curve instance cannot raise. -/
theorem wrap_curve_ne_error (v : V) (h : isCurveB v = true) (e : PicError) :
    wrap v ≠ Except.error e := by
  rw [wrap_of_curve h]
  simp

/-- Helper: whatever wrap returns successfully is a Curve instance. -/
theorem wrap_ok_isCurve {v w : V} (h : wrap v = Except.ok w) : isCurveB w = true := by
  by_cases hc : isCurveB v = true
  · rw [wrap_of_curve hc] at h
    injection h with h2
    rw [← h2]
    exact hc
  · cases v with
    | num n =>
        simp [wrap, isCurveB] at h
        rw [← h]
        rfl
    | fn f =>
        simp [wrap, isCurveB] at h
        rw [← h]
        rfl
    | tup l =>
        rcases l with _ | ⟨x, _ | ⟨y, _ | ⟨z, l⟩⟩⟩ <;> simp [wrap, isCurveB] at h
        rw [← h]
        rfl
    | fnC f => exact absurd rfl hc
    | translate a b => exact absurd rfl hc
    | scale a b => exact absurd rfl hc
    | rotate a b => exact absurd rfl hc
    | concat a b => exact absurd rfl hc
    | reverse a => exact absurd rfl hc
    | rep a n => exact absurd rfl hc
    | step a n => exact absurd rfl hc

/-- Helper: pointwise commutativity of a translate node. -/
theorem translate_comm_eval (a b : V) (t : ℝ) :
    evalV (V.translate a b) t = evalV (V.translate b a) t := by
  cases ha : evalV a t <;> cases hb : evalV b t <;>
    simp [evalV, ha, hb] <;> constructor <;> ring

/-- Helper: pointwise commutativity of a scale node. -/
theorem scale_comm_eval (a b : V) (t : ℝ) :
    evalV (V.scale a b) t = evalV (V.scale b a) t := by
  cases ha : evalV a t <;> cases hb : evalV b t <;>
    simp [evalV, ha, hb] <;> constructor <;> ring

/-- Helper: pointwise commutativity of a rotate node. -/
theorem rotate_comm_eval (a b : V) (t : ℝ) :
    evalV (V.rotate a b) t = evalV (V.rotate b a) t := by
  cases ha : evalV a t <;> cases hb : evalV b t <;>
    simp [evalV, ha, hb] <;> constructor <;> ring

/-- Helper: full characterisation of _popone on a stack satisfying the
invariant: an empty buffer returns the number 0 and leaves the state alone;
otherwise the cursor is decremented with the documented wraparound, lands
strictly inside the buffer, and the slot there is returned. -/
theorem popone_spec (s : PicStack) (hinv : StackInv s) :
    (s.stack = [] → s.popone = some (V.num 0, s)) ∧
    (s.stack ≠ [] →
      ∀ p : ℤ,
        p = (if s.stackptr - 1 < 0 then min (s.stack.length : ℤ) 8 - 1
             else s.stackptr - 1) →
        0 ≤ p ∧ p < (s.stack.length : ℤ) ∧
        ∃ x, s.stack.get? p.toNat = some x ∧ s.popone = some (x, ⟨s.stack, p⟩)) := by
  obtain ⟨h1, h2⟩ := hinv
  constructor
  · intro he
    simp [PicStack.popone, he]
  · intro hne p hp
    have hlen : 0 < s.stack.length := List.length_pos.mpr hne
    have hp0 : 0 ≤ p := by
      rw [hp]; split <;> omega
    have hplt : p < (s.stack.length : ℤ) := by
      rw [hp]; split <;> omega
    have htn : p.toNat < s.stack.length := by omega
    have hemp : s.stack.isEmpty = false := by
      rcases hs : s.stack with _ | ⟨a, as⟩
      · exact absurd hs hne
      · rfl
    have hget : s.stack.get? p.toNat = some (s.stack.get ⟨p.toNat, htn⟩) :=
      List.get?_eq_get htn
    have hpy : pyget s.stack p = some (s.stack.get ⟨p.toNat, htn⟩) := by
      simp only [pyget]
      rw [if_neg (by omega : ¬ p < 0), if_pos hp0]
      exact hget
    refine ⟨hp0, hplt, s.stack.get ⟨p.toNat, htn⟩, hget, ?_⟩
    simp only [PicStack.popone, hemp, Bool.false_eq_true, if_false, ← hp, hpy]

/-- Helper: _popone never fails on a stack satisfying the invariant, keeps
the buffer unchanged, and preserves the invariant. -/
theorem popone_ok (s : PicStack) (h : StackInv s) :
    ∃ x s', s.popone = some (x, s') ∧ StackInv s' ∧ s'.stack = s.stack := by
  by_cases he : s.stack = []
  · exact ⟨V.num 0, s, (popone_spec s h).1 he, h, rfl⟩
  · obtain ⟨hp0, hplt, x, hget, hpop⟩ := (popone_spec s h).2 he _ rfl
    exact ⟨x, _, hpop, ⟨hp0, le_of_lt hplt⟩, rfl⟩

/-- Helper: pop(num) never fails on a stack satisfying the invariant,
returns exactly num values, keeps the buffer unchanged from all the single
pops, and preserves the invariant. -/
theorem pop_ok (s : PicStack) (n : ℕ) (h : StackInv s) :
    ∃ xs s', s.pop n = some (xs, s') ∧ StackInv s' ∧ s'.stack = s.stack ∧
      xs.length = n := by
  induction n generalizing s with
  | zero => exact ⟨[], s, rfl, h, rfl, rfl⟩
  | succ m ih =>
      obtain ⟨x, s1, h1, hinv1, hst1⟩ := popone_ok s h
      obtain ⟨xs, s2, h2, hinv2, hst2, hlen⟩ := ih s1 hinv1
      refine ⟨x :: xs, s2, ?_, hinv2, by rw [hst2, hst1], by simp [hlen]⟩
      simp [PicStack.pop, h1, h2]

/-- Helper: push never fails on a stack satisfying the invariant, preserves
the invariant, and never shrinks the buffer. -/
theorem push_ok (s : PicStack) (e : V) (h : StackInv s) :
    ∃ s', s.push e = some s' ∧ StackInv s' ∧ s.stack.length ≤ s'.stack.length := by
  obtain ⟨h1, h2⟩ := h
  by_cases hlt : s.stackptr < (s.stack.length : ℤ)
  · have hset : pyset s.stack s.stackptr e = some (s.stack.set s.stackptr.toNat e) := by
      simp only [pyset]
      rw [if_neg (by omega : ¬ s.stackptr < 0), if_pos ⟨h1, hlt⟩]
    refine ⟨⟨s.stack.set s.stackptr.toNat e, s.stackptr + 1⟩, ?_, ⟨?_, ?_⟩, ?_⟩
    · simp [PicStack.push, hlt, hset]
    · show 0 ≤ s.stackptr + 1
      omega
    · show s.stackptr + 1 ≤ ((s.stack.set s.stackptr.toNat e).length : ℤ)
      rw [List.length_set]
      omega
    · simp [List.length_set]
  · refine ⟨⟨s.stack ++ [e], s.stackptr + 1⟩, ?_, ⟨?_, ?_⟩, ?_⟩
    · simp [PicStack.push, hlt]
    · show 0 ≤ s.stackptr + 1
      omega
    · show s.stackptr + 1 ≤ ((s.stack ++ [e]).length : ℤ)
      rw [List.length_append]
      push_cast
      simp only [List.length_cons, List.length_nil]
      omega
    · simp

/-- Helper: every reachable PicStack satisfies the invariant. -/
theorem reaches_inv {s : PicStack} (h : Reaches s) : StackInv s := by
  induction h with
  | init => exact ⟨le_refl 0, by simp [PicStack.init]⟩
  | push hr hp ih =>
      obtain ⟨s'', hp', hinv', _⟩ := push_ok _ _ ih
      rw [hp] at hp'
      injection hp' with he
      rw [he]
      exact hinv'
  | pop1 hr hp ih =>
      obtain ⟨x', s'', hp', hinv', _⟩ := popone_ok _ ih
      rw [hp] at hp'
      injection hp' with he
      rw [Prod.mk.injEq] at he
      rw [he.2]
      exact hinv'
  | popN hr hp ih =>
      obtain ⟨xs', s'', hp', hinv', _, _⟩ := pop_ok _ _ ih
      rw [hp] at hp'
      injection hp' with he
      rw [Prod.mk.injEq] at he
      rw [he.2]
      exact hinv'

/-- C1 counterexample: step(line, 0) is a curve built from the primitives
and the combinators, yet evaluating it at t = 0 divides by its zero steps
field (a ZeroDivisionError in the source), so evaluation does fail there. -/
theorem C1_eval_total_cex : evalV (stepC line 0) 0 = none := by
  simp [evalV, stepC]

/-- C1 (amended): evaluation never fails for every curve whose
reverse/repeat/step operands are themselves callable curve values, whose
repeat and step parameters are numbers, and whose step counts are nonzero;
only wrap (at construction time) and the zero-step division can fail. -/
theorem C1_eval_total_amended :
    ∀ v : V, evalTotal v → ∀ t : ℝ, ∃ p, evalV v t = some p := by
  intro v
  induction v with
  | num n => intro h; simp [evalTotal] at h
  | tup l => intro h; simp [evalTotal] at h
  | fn f => intro _ t; exact ⟨f t, rfl⟩
  | fnC f => intro _ t; exact ⟨f t, rfl⟩
  | translate a b iha ihb =>
      intro h t
      obtain ⟨ha, hb⟩ := h
      obtain ⟨pa, hpa⟩ := iha ha t
      obtain ⟨pb, hpb⟩ := ihb hb t
      exact ⟨(pa.1 + pb.1, pa.2 + pb.2), by simp [evalV, hpa, hpb]⟩
  | scale a b iha ihb =>
      intro h t
      obtain ⟨ha, hb⟩ := h
      obtain ⟨pa, hpa⟩ := iha ha t
      obtain ⟨pb, hpb⟩ := ihb hb t
      exact ⟨(pa.1 * pb.1, pa.2 * pb.2), by simp [evalV, hpa, hpb]⟩
  | rotate a b iha ihb =>
      intro h t
      obtain ⟨ha, hb⟩ := h
      obtain ⟨pa, hpa⟩ := iha ha t
      obtain ⟨pb, hpb⟩ := ihb hb t
      exact ⟨(pa.1 * pb.1 - pa.2 * pb.2, pa.2 * pb.1 + pa.1 * pb.2),
        by simp [evalV, hpa, hpb]⟩
  | concat a b iha ihb =>
      intro h t
      obtain ⟨ha, hb⟩ := h
      by_cases hlt : t < 1 / 2
      · obtain ⟨pa, hpa⟩ := iha ha (t * 2)
        refine ⟨pa, ?_⟩
        show (if t < 1 / 2 then evalV a (t * 2) else evalV b (t * 2 - 1)) = some pa
        rw [if_pos hlt]
        exact hpa
      · obtain ⟨pb, hpb⟩ := ihb hb (t * 2 - 1)
        refine ⟨pb, ?_⟩
        show (if t < 1 / 2 then evalV a (t * 2) else evalV b (t * 2 - 1)) = some pb
        rw [if_neg hlt]
        exact hpb
  | reverse a iha =>
      intro h t
      obtain ⟨p, hp⟩ := iha h (1 - t)
      exact ⟨p, by simp [evalV, hp]⟩
  | rep a n iha ihn =>
      intro h t
      obtain ⟨ha, k, hk⟩ := h
      subst hk
      obtain ⟨p, hp⟩ := iha ha (Int.fract (t * k))
      exact ⟨p, by simp [evalV, hp]⟩
  | step a n iha ihn =>
      intro h t
      obtain ⟨ha, k, hk, hk0⟩ := h
      subst hk
      obtain ⟨p, hp⟩ := iha ha ((⌊t * k⌋ : ℝ) / k)
      exact ⟨p, by simp [evalV, hk0, hp]⟩

/-- C1 witness: the amended totality theorem applied to step(line, 1). -/
theorem C1_eval_total_witness :
    evalTotal (V.step line (V.num 1)) ∧
      ∃ p, evalV (V.step line (V.num 1)) 0 = some p := by
  have h : evalTotal (V.step line (V.num 1)) := by
    refine ⟨?_, 1, rfl, one_ne_zero⟩
    simp [evalTotal, line]
  exact ⟨h, C1_eval_total_amended _ h 0⟩

/-- C2 counterexample: reverse does not coerce its operand through wrap.
reverse(1) is constructed without error, but evaluating it at t = 0 calls
the number 1 as a function (a TypeError in the source), whereas reverse
applied to wrap(1), the constant curve at (1, 1), evaluates to (1, 1). -/
theorem C2_coercion_cex :
    evalV (reverseC (V.num 1)) 0 = none ∧
    wrap (V.num 1) = Except.ok (constant (1, 1)) ∧
    evalV (V.reverse (constant (1, 1))) 0 = some (1, 1) :=
  ⟨rfl, rfl, rfl⟩

/-- C2 (amended): translate, scale, rotate and concat do coerce both
operands through wrap at their boundary, so applying them to a coercible
raw value is literally applying them to its wrap image; reverse, repeat,
step and boustro store their curve operand unwrapped, so they only behave
as if wrapped when the operand is a bare callable (or already a Curve),
while raw numbers and pairs make their evaluation fail. -/
theorem C2_coercion_amended :
    (∀ v w b, wrap v = Except.ok w →
      translateC v b = translateC w b ∧ translateC b v = translateC b w ∧
      scaleC v b = scaleC w b ∧ scaleC b v = scaleC b w ∧
      rotateC v b = rotateC w b ∧ rotateC b v = rotateC b w ∧
      concatC v b = concatC w b ∧ concatC b v = concatC b w) ∧
    (∀ (f : ℝ → ℝ × ℝ) (n t : ℝ),
      evalV (reverseC (V.fn f)) t = evalV (V.reverse (V.fnC f)) t ∧
      evalV (repeatC (V.fn f) n) t = evalV (repeatC (V.fnC f) n) t ∧
      evalV (stepC (V.fn f) n) t = evalV (stepC (V.fnC f) n) t ∧
      evalE (boustroC (V.fn f) n) t = evalE (boustroC (V.fnC f) n) t) := by
  constructor
  · intro v w b h
    have hw : wrap w = Except.ok w := wrap_of_curve (wrap_ok_isCurve h)
    refine ⟨?_, ?_, ?_, ?_, ?_, ?_, ?_, ?_⟩ <;>
      simp [translateC, scaleC, rotateC, concatC, h, hw]
  · intro f n t
    exact ⟨rfl, rfl, rfl, rfl⟩

/-- C2 witness: the amended theorem applied to the number 1 and its wrap
image, and to a bare callable operand of reverse. -/
theorem C2_coercion_witness :
    translateC (V.num 1) line = translateC (constant (1, 1)) line ∧
    evalV (reverseC (V.fn fun u => (u, u))) 0
      = evalV (V.reverse (V.fnC fun u => (u, u))) 0 :=
  ⟨(C2_coercion_amended.1 (V.num 1) (constant (1, 1)) line rfl).1,
   (C2_coercion_amended.2 (fun u => (u, u)) 1 0).1⟩

/-- C3: pop on an empty buffer returns the number 0 without touching the
state; otherwise the cursor is decremented and, when it becomes negative,
wrapped to min(bufferLength, 8) - 1, the new cursor is strictly inside the
buffer, and the slot there is returned; on any stack satisfying the
invariant (which all reachable stacks do) pop never fails. -/
theorem C3_popone_behaviour :
    ∀ s : PicStack, StackInv s →
      (s.stack = [] → s.popone = some (V.num 0, s)) ∧
      (s.stack ≠ [] →
        ∀ p : ℤ,
          p = (if s.stackptr - 1 < 0 then min (s.stack.length : ℤ) 8 - 1
               else s.stackptr - 1) →
          0 ≤ p ∧ p < (s.stack.length : ℤ) ∧
          ∃ x, s.stack.get? p.toNat = some x ∧ s.popone = some (x, ⟨s.stack, p⟩)) ∧
      (∀ n : ℕ, ∃ xs s', s.pop n = some (xs, s') ∧ xs.length = n) := by
  intro s h
  refine ⟨(popone_spec s h).1, (popone_spec s h).2, ?_⟩
  intro n
  obtain ⟨xs, s', hpop, _, _, hlen⟩ := pop_ok s n h
  exact ⟨xs, s', hpop, hlen⟩

/-- C3 witness: the pop characterisation applied to a one-element stack and
to the empty stack. -/
theorem C3_popone_behaviour_witness :
    (⟨[], 0⟩ : PicStack).popone = some (V.num 0, ⟨[], 0⟩) ∧
    ∃ x, ([line] : List V).get? (0 : ℤ).toNat = some x ∧
      (⟨[line], 1⟩ : PicStack).popone = some (x, ⟨[line], 0⟩) := by
  refine ⟨(C3_popone_behaviour ⟨[], 0⟩ ⟨le_refl 0, by simp⟩).1 rfl, ?_⟩
  have h := ((C3_popone_behaviour ⟨[line], 1⟩ ⟨by norm_num, by simp⟩).2.1
    (by simp) 0 (by norm_num))
  exact h.2.2

/-- C4: stackparse([circle, line, scale]) pops the two operands (line first,
then circle) and applies scale to them in popped order, producing the tree
scale(line, circle); by commutativity of scale this evaluates at every t to
the same point as scale(circle, line) built directly. -/
theorem C4_stackparse_scale :
    stackparse [Token.circleTok, Token.lineTok, Token.ctorTok CtorTag.scaleT]
      = Except.ok (V.scale line circle) ∧
    scaleC circle line = Except.ok (V.scale circle line) ∧
    ∀ t : ℝ, evalV (V.scale line circle) t = evalV (V.scale circle line) t :=
  ⟨rfl, rfl, fun t => scale_comm_eval line circle t⟩

/-- C5: wrap is the identity on Curve instances, wraps a bare callable as a
FunctionCurve, turns a number n into the constant curve at (n, n), turns a
pair into the constant curve holding it, and fails, carrying the offending
value and its type name, exactly on the remaining values. -/
theorem C5_wrap_characterisation :
    (∀ v, isCurveB v = true → wrap v = Except.ok v) ∧
    (∀ f, wrap (V.fn f) = Except.ok (V.fnC f)) ∧
    (∀ n : ℝ, wrap (V.num n) = Except.ok (constant (n, n))) ∧
    (∀ x y : ℝ, wrap (V.tup [x, y]) = Except.ok (constant (x, y))) ∧
    (∀ l : List ℝ, l.length ≠ 2 →
      wrap (V.tup l)
        = Except.error (PicError.invalidOperand (V.tup l) (typeNameV (V.tup l)))) ∧
    (∀ v e, wrap v = Except.error e →
      isCurveB v = false ∧ (∀ f, v ≠ V.fn f) ∧ (∀ n : ℝ, v ≠ V.num n) ∧
        ∀ x y : ℝ, v ≠ V.tup [x, y]) := by
  refine ⟨fun v h => wrap_of_curve h, fun f => rfl, fun n => rfl, fun x y => rfl,
    ?_, ?_⟩
  · intro l hl
    rcases l with _ | ⟨x, _ | ⟨y, _ | ⟨z, l⟩⟩⟩
    · rfl
    · rfl
    · exact absurd rfl hl
    · rfl
  · intro v e h
    cases v with
    | num n => simp [wrap, isCurveB] at h
    | fn f => simp [wrap, isCurveB] at h
    | tup l =>
        rcases l with _ | ⟨x, _ | ⟨y, _ | ⟨z, l⟩⟩⟩
        · exact ⟨rfl, fun f => by simp, fun n => by simp, fun x y => by simp⟩
        · exact ⟨rfl, fun f => by simp, fun n => by simp, fun a b => by simp⟩
        · simp [wrap, isCurveB] at h
        · exact ⟨rfl, fun f => by simp, fun n => by simp, fun a b => by simp⟩
    | fnC f => exact absurd h (wrap_curve_ne_error (V.fnC f) rfl e)
    | translate a b => exact absurd h (wrap_curve_ne_error (V.translate a b) rfl e)
    | scale a b => exact absurd h (wrap_curve_ne_error (V.scale a b) rfl e)
    | rotate a b => exact absurd h (wrap_curve_ne_error (V.rotate a b) rfl e)
    | concat a b => exact absurd h (wrap_curve_ne_error (V.concat a b) rfl e)
    | reverse a => exact absurd h (wrap_curve_ne_error (V.reverse a) rfl e)
    | rep a n => exact absurd h (wrap_curve_ne_error (V.rep a n) rfl e)
    | step a n => exact absurd h (wrap_curve_ne_error (V.step a n) rfl e)

/-- C5 witness: wrap applied to a Curve, a number and an empty tuple. -/
theorem C5_wrap_characterisation_witness :
    wrap line = Except.ok line ∧
    wrap (V.num 2) = Except.ok (constant (2, 2)) ∧
    wrap (V.tup [])
      = Except.error (PicError.invalidOperand (V.tup []) (typeNameV (V.tup []))) :=
  ⟨C5_wrap_characterisation.1 line rfl,
   C5_wrap_characterisation.2.2.1 2,
   C5_wrap_characterisation.2.2.2.2.1 [] (by decide)⟩

/-- C6: translate, scale and rotate are pointwise commutative, both on the
raw combinator nodes and through the wrapping constructors. -/
theorem C6_pointwise_comm :
    ∀ (a b : V) (t : ℝ),
      evalV (V.translate a b) t = evalV (V.translate b a) t ∧
      evalV (V.scale a b) t = evalV (V.scale b a) t ∧
      evalV (V.rotate a b) t = evalV (V.rotate b a) t ∧
      evalE (translateC a b) t = evalE (translateC b a) t ∧
      evalE (scaleC a b) t = evalE (scaleC b a) t ∧
      evalE (rotateC a b) t = evalE (rotateC b a) t := by
  intro a b t
  refine ⟨translate_comm_eval a b t, scale_comm_eval a b t, rotate_comm_eval a b t,
    ?_, ?_, ?_⟩ <;>
    cases ha : wrap a <;> cases hb : wrap b <;>
      simp [translateC, scaleC, rotateC, evalE, ha, hb,
        exceptBindOk, exceptBindError,
        translate_comm_eval, scale_comm_eval, rotate_comm_eval]

/-- C7: scale and rotate distribute pointwise over translate. -/
theorem C7_distributivity :
    ∀ (a b c : V) (t : ℝ),
      evalV (V.scale a (V.translate b c)) t
        = evalV (V.translate (V.scale a b) (V.scale a c)) t ∧
      evalV (V.rotate a (V.translate b c)) t
        = evalV (V.translate (V.rotate a b) (V.rotate a c)) t := by
  intro a b c t
  constructor <;>
    cases ha : evalV a t <;> cases hb : evalV b t <;> cases hc : evalV c t <;>
      simp [evalV, ha, hb, hc] <;> constructor <;> ring

/-- C8: concat runs its first operand on doubled time below one half and its
second operand on the second half thereafter; in particular t = 0 evaluates
the first operand at 0 and the boundary t = 0.5 routes to the second
operand at 0. -/
theorem C8_concat_semantics :
    ∀ (a b : V) (t : ℝ),
      evalV (V.concat a b) t
        = (if t < 1 / 2 then evalV a (2 * t) else evalV b (2 * t - 1)) ∧
      evalV (V.concat a b) 0 = evalV a 0 ∧
      evalV (V.concat a b) (1 / 2) = evalV b 0 := by
  intro a b t
  refine ⟨?_, ?_, ?_⟩
  · show (if t < 1 / 2 then evalV a (t * 2) else evalV b (t * 2 - 1)) = _
    rw [mul_comm]
  · show (if (0 : ℝ) < 1 / 2 then evalV a (0 * 2) else evalV b (0 * 2 - 1))
      = evalV a 0
    rw [if_pos (by norm_num : (0 : ℝ) < 1 / 2)]
    norm_num
  · show (if (1 / 2 : ℝ) < 1 / 2 then evalV a (1 / 2 * 2)
        else evalV b (1 / 2 * 2 - 1)) = evalV b 0
    rw [if_neg (lt_irrefl (1 / 2 : ℝ))]
    norm_num

/-- C9: boustro(c, times) is exactly repeat(concat(c, reverse(c)), times/2),
and for a Curve operand the inner concat(c, reverse(c)) evaluates to c(0)
both at t = 0 and at t = 1, so each repeat seam re-enters at c(0). -/
theorem C9_boustro :
    (∀ (c : V) (n : ℝ),
      boustroC c n
        = Except.map (fun k => repeatC k (n / 2)) (concatC c (reverseC c))) ∧
    (∀ (c : V) (n : ℝ), isCurveB c = true →
      boustroC c n
        = Except.ok (V.rep (V.concat c (V.reverse c)) (V.num (n / 2)))) ∧
    (∀ c : V, isCurveB c = true →
      evalV (V.concat c (V.reverse c)) 0 = evalV c 0 ∧
      evalV (V.concat c (V.reverse c)) 1 = evalV c 0) := by
  refine ⟨?_, ?_, ?_⟩
  · intro c n
    cases h : concatC c (reverseC c) <;>
      simp [boustroC, boustroCV, repeatC, h, Except.map,
        exceptBindOk, exceptBindError]
  · intro c n hc
    have h1 : wrap c = Except.ok c := wrap_of_curve hc
    have h2 : wrap (V.reverse c) = Except.ok (V.reverse c) :=
      wrap_of_curve (v := V.reverse c) rfl
    simp [boustroC, boustroCV, concatC, reverseC, h1, h2,
      exceptBindOk, exceptBindError]
  · intro c hc
    constructor
    · show (if (0 : ℝ) < 1 / 2 then evalV c (0 * 2)
          else evalV (V.reverse c) (0 * 2 - 1)) = evalV c 0
      rw [if_pos (by norm_num : (0 : ℝ) < 1 / 2)]
      norm_num
    · show (if (1 : ℝ) < 1 / 2 then evalV c (1 * 2)
          else evalV (V.reverse c) (1 * 2 - 1)) = evalV c 0
      rw [if_neg (by norm_num : ¬ (1 : ℝ) < 1 / 2)]
      show evalV c (1 - (1 * 2 - 1)) = evalV c 0
      norm_num

/-- C9 witness: the boustro characterisation applied to the line curve. -/
theorem C9_boustro_witness :
    boustroC line 4
      = Except.ok (V.rep (V.concat line (V.reverse line)) (V.num (4 / 2))) ∧
    evalV (V.concat line (V.reverse line)) 0 = evalV line 0 ∧
    evalV (V.concat line (V.reverse line)) 1 = evalV line 0 :=
  ⟨C9_boustro.2.1 line 4 rfl, (C9_boustro.2.2 line rfl).1, (C9_boustro.2.2 line rfl).2⟩

/-- C10: every PicStack reachable from a fresh stack by pushes and pops has
its cursor between 0 and the buffer length, push and pop always succeed on
it (so no buffer access is out of bounds and no operation raises), push
never shrinks the buffer, and pops leave the buffer intact. -/
theorem C10_stack_safety :
    ∀ s : PicStack, Reaches s →
      StackInv s ∧
      (∀ e, ∃ s', s.push e = some s' ∧ StackInv s' ∧
        s.stack.length ≤ s'.stack.length) ∧
      (∃ x s', s.popone = some (x, s') ∧ StackInv s' ∧ s'.stack = s.stack) ∧
      (∀ n : ℕ, ∃ xs s', s.pop n = some (xs, s') ∧ StackInv s' ∧
        s'.stack = s.stack) := by
  intro s hr
  have hinv : StackInv s := reaches_inv hr
  refine ⟨hinv, fun e => push_ok s e hinv, popone_ok s hinv, fun n => ?_⟩
  obtain ⟨xs, s', h1, h2, h3, _⟩ := pop_ok s n hinv
  exact ⟨xs, s', h1, h2, h3⟩

/-- C10 witness: the safety theorem applied to the freshly created stack. -/
theorem C10_stack_safety_witness :
    StackInv PicStack.init ∧
    ∃ x s', PicStack.init.popone = some (x, s') ∧ StackInv s' ∧
      s'.stack = PicStack.init.stack :=
  ⟨(C10_stack_safety PicStack.init Reaches.init).1,
   (C10_stack_safety PicStack.init Reaches.init).2.2.1⟩

end Piclang
